import Mathlib

/-!
Verification of the CCTestSuite framework core: the suite registry
(src/dsl.ts), the hook collector and sequential hook executor
(collectHooks / runHooks in src/dsl.ts), the test runner
(runTests / runDescribeBlock / getTestList in src/runner.ts) and the
error normalizer (parseError in src/runner.ts), shallowly embedded in
Lean.  Hooks and test bodies are modelled by the pushes they perform
and the value they may throw; the strictly sequential await chain of
the engine makes the run a pure function of the registered tree.
-/

namespace CCTest

/-- Abstract payload identifying a thrown value inside the runner.  The
runner only threads thrown values through to results and events, so they
are modelled as plain numbers; the structural normalisation of thrown
values (parseError) is modelled separately further below. -/
abbrev Err := Nat

/-- A lifecycle hook (HookFn): when run it performs its pushes `effs` in
order and then either returns normally (`err = none`) or throws `err`. -/
structure Hook where
  effs : List String := []
  err : Option Err := none
  deriving DecidableEq

/-- A test case (TestCase): display name, the pushes its body performs,
the value the body may throw, and the tags stripped from its name. -/
structure Test where
  name : String
  effs : List String := []
  err : Option Err := none
  tags : List String := []
  deriving DecidableEq

/-- The per-node data of a DescribeBlock apart from its tests, children
and run-time flags: display name and the four hook lists.  The run-time
flags (`ranBeforeAll`, `executed`) live in the run state, keyed by the
node's path of child indices. -/
structure Blk where
  name : String
  beforeAllHooks : List Hook := []
  beforeEachHooks : List Hook := []
  afterEachHooks : List Hook := []
  afterAllHooks : List Hook := []
  deriving DecidableEq

mutual
/-- A DescribeBlock: its own data, its test leaves in declaration order,
and its child suites in declaration order. -/
inductive DB : Type where
  | node (blk : Blk) (tests : List Test) (children : DBList)

/-- The children list of a DescribeBlock (a dedicated list type so that
the runner's recursion over the tree is structural). -/
inductive DBList : Type where
  | nil
  | cons (c : DB) (cs : DBList)
end

deriving instance DecidableEq for DB

def DB.blk : DB → Blk
  | .node b _ _ => b

def DB.tests : DB → List Test
  | .node _ ts _ => ts

def DB.children : DB → DBList
  | .node _ _ cs => cs

/-- A suite node together with its parent chain, as runDescribeBlock and
collectHooks see a DescribeBlock through its `parent` pointers.  The
child index is the node's position among its parent's children, so the
index path identifies the node in the run state. -/
inductive RNode : Type where
  | root (blk : Blk)
  | child (blk : Blk) (idx : Nat) (parent : RNode)
  deriving DecidableEq

def RNode.blk : RNode → Blk
  | .root b => b
  | .child b _ _ => b

/-- The path of child indices from the implicit root down to this node
(root itself has path `[]`). -/
def RNode.path : RNode → List Nat
  | .root _ => []
  | .child _ i p => p.path ++ [i]

inductive HookType : Type where
  | beforeAll | beforeEach | afterEach | afterAll
  deriving DecidableEq

def Blk.hooksOf (b : Blk) : HookType → List Hook
  | .beforeAll => b.beforeAllHooks
  | .beforeEach => b.beforeEachHooks
  | .afterEach => b.afterEachHooks
  | .afterAll => b.afterAllHooks

/-- getSuitePath's walk: collect the names of the non-root nodes on the
chain, outermost first (`path.unshift(current.name)` while the current
node has a parent). -/
def namesFromRoot : RNode → List String
  | .root _ => []
  | .child b _ p => namesFromRoot p ++ [b.name]

/-- getSuitePath: the ancestor names joined with " > ", root excluded. -/
def getSuitePath (n : RNode) : String :=
  String.intercalate " > " (namesFromRoot n)

/-- The `blockChain` list built by the walk-up loop in collectHooks:
the node first, then its ancestors, the root last. -/
def blockChain : RNode → List Blk
  | .root b => [b]
  | .child b _ p => b :: blockChain p

/-- collectHooks: for before-all and before-each iterate the chain from
its root end (outermost first), for after-each and after-all from its
node end (innermost first), appending each block's list for the phase. -/
def collectHooks (block : RNode) (ty : HookType) : List Hook :=
  let chain := blockChain block
  match ty with
  | .beforeAll | .beforeEach =>
    chain.reverse.foldl (fun acc b => acc ++ b.hooksOf ty) []
  | .afterEach | .afterAll =>
    chain.foldl (fun acc b => acc ++ b.hooksOf ty) []

/-- The `{ success, error? }` record returned by runHooks. -/
structure HookRunOutcome where
  success : Bool
  error : Option Err := none
  deriving DecidableEq

/-- runHooks: await each hook strictly in order; on the first throw stop
immediately and report that error, running no later hook of the
sequence.  The first component is the sequence of pushes the executed
hooks performed (a throwing hook's own pushes happen before it throws). -/
def runHooksM : List Hook → List String × HookRunOutcome
  | [] => ([], ⟨true, none⟩)
  | h :: hs =>
    match h.err with
    | some e => (h.effs, ⟨false, some e⟩)
    | none =>
      let r := runHooksM hs
      (h.effs ++ r.1, r.2)

inductive TestStatus : Type where
  | passed | failed | skipped
  deriving DecidableEq

structure TestResult where
  suite : String
  test : String
  status : TestStatus
  duration : Nat := 0
  error : Option Err := none
  deriving DecidableEq

/-- TestEvent; durations are modelled as 0 (the model keeps no clock).
The fail event's error is the recorded error of the failing stage. -/
inductive TestEvent : Type where
  | start (suite test : String)
  | pass (suite test : String) (duration : Nat)
  | fail (suite test : String) (duration : Nat) (error : Option Err)
  | complete (results : List TestResult)
  deriving DecidableEq

structure OnlyOpt where
  suite : Option String := none
  test : Option String := none

/-- RunOptions; `onEvent` is modelled by the event list accumulated in
the run state. -/
structure RunOptions where
  filter : Option (String → String → Bool) := none
  only : Option OnlyOpt := none
  bail : Bool := false

/-- The mutable run-time state of one runTests call: the per-node
`ranBeforeAll` and `executed` flags (as the set of node paths whose flag
is true), the shared `globalBail` flag, and the accumulated results,
events and pushes. -/
structure RunState where
  ranBA : List (List Nat) := []
  executed : List (List Nat) := []
  bail : Bool := false
  results : List TestResult := []
  events : List TestEvent := []
  log : List String := []

/-- The shouldRun test of the runner's test loop: the filter predicate
(absent means accept) and the `only` exact-match restriction.  An empty
`only.suite` / `only.test` string is falsy in the source and therefore
restricts nothing. -/
def shouldRunM (opts : RunOptions) (suitePath : String) (t : Test) : Bool :=
  (match opts.filter with
   | none => true
   | some f => f suitePath t.name) &&
  (match opts.only with
   | none => true
   | some o =>
     (match o.suite with
      | none => true
      | some s => s == "" || s == suitePath) &&
     (match o.test with
      | none => true
      | some s => s == "" || s == t.name))

/-- The body of the per-test loop in runDescribeBlock: start event, the
before-each chain, the test body only when before-each succeeded, the
after-each chain always, the failure-precedence rule (an after-each
failure only overrides a successful test), the recorded result and the
pass/fail event, raising the bail flag on failure when configured. -/
def runTestM (opts : RunOptions) (node : RNode) (suitePath : String)
    (t : Test) (st : RunState) : RunState :=
  let st1 := { st with events := st.events ++ [TestEvent.start suitePath t.name] }
  let be := runHooksM (collectHooks node .beforeEach)
  let st2 := { st1 with log := st1.log ++ be.1 }
  let stage : Bool × Option Err × List String :=
    if !be.2.success then (false, be.2.error, [])
    else
      match t.err with
      | some e => (false, some e, t.effs)
      | none => (true, none, t.effs)
  let st3 := { st2 with log := st2.log ++ stage.2.2 }
  let ae := runHooksM (collectHooks node .afterEach)
  let st4 := { st3 with log := st3.log ++ ae.1 }
  let final : Bool × Option Err :=
    if !ae.2.success && stage.1 then (false, ae.2.error)
    else (stage.1, stage.2.1)
  let status := if final.1 then TestStatus.passed else TestStatus.failed
  let st5 := { st4 with results := st4.results ++
    [({ suite := suitePath, test := t.name, status := status, duration := 0,
        error := final.2 } : TestResult)] }
  if final.1 then
    { st5 with events := st5.events ++ [TestEvent.pass suitePath t.name 0] }
  else
    { st5 with events := st5.events ++ [TestEvent.fail suitePath t.name 0 final.2],
               bail := st5.bail || opts.bail }

/-- The test loop of runDescribeBlock: check the bail flag before each
test, skip tests shouldRun rejects, and run the rest in order. -/
def runTestsLoop (opts : RunOptions) (node : RNode) (suitePath : String) :
    List Test → RunState → RunState
  | [], st => st
  | t :: ts, st =>
    if st.bail then st
    else if shouldRunM opts suitePath t then
      runTestsLoop opts node suitePath ts (runTestM opts node suitePath t st)
    else
      runTestsLoop opts node suitePath ts st

/-- The while-loop of step 1 of runDescribeBlock: walk up from the node,
front-prepending every node whose ranBeforeAll flag is still false, and
stop at the first flagged ancestor.  The result lists (block data, path)
pairs outermost first. -/
def lineageWalk : RNode → List (List Nat) → List (Blk × List Nat)
  | .root b, ran =>
    if RNode.path (.root b) ∈ ran then [] else [(b, RNode.path (.root b))]
  | .child b i p, ran =>
    if RNode.path (.child b i p) ∈ ran then []
    else lineageWalk p ran ++ [(b, RNode.path (.child b i p))]

/-- Marking the lineage: every collected node's ranBeforeAll flag is set
in the state in which the collected hooks will then execute. -/
def markLineage (lineage : List (Blk × List Nat)) (st : RunState) : RunState :=
  { st with ranBA := st.ranBA ++ lineage.map (fun pr => pr.2) }

/-- Step 1 of runDescribeBlock: the lazy, once-per-scope before-all
execution.  The unrun portion of the ancestor chain is collected, every
collected node is marked as ran *before* the hooks execute, and a
failure records a synthetic "(beforeAll hook)" result and fail event and
raises bail when configured.  Returns the state and beforeAllSuccess. -/
def beforeAllStep (opts : RunOptions) (node : RNode) (suitePath : String)
    (st : RunState) : RunState × Bool :=
  if node.path ∈ st.ranBA then (st, true)
  else
    let lineage := lineageWalk node st.ranBA
    let st1 := markLineage lineage st
    let hooksToRun := lineage.foldl (fun acc pr => acc ++ pr.1.beforeAllHooks) []
    if hooksToRun.isEmpty then (st1, true)
    else
      let r := runHooksM hooksToRun
      let st2 := { st1 with log := st1.log ++ r.1 }
      if r.2.success then (st2, true)
      else
        ({ st2 with
            results := st2.results ++
              [({ suite := suitePath, test := "(beforeAll hook)",
                  status := .failed, duration := 0, error := r.2.error } : TestResult)],
            events := st2.events ++
              [TestEvent.fail suitePath "(beforeAll hook)" 0 r.2.error],
            bail := st2.bail || opts.bail }, false)

/-- Step 4 of runDescribeBlock: the after-all hooks of this block alone,
run only if the block was entered and its own before-all succeeded; a
failure records a synthetic "(afterAll hook)" result and fail event and
raises bail when configured. -/
def afterAllStep (opts : RunOptions) (blk : Blk) (node : RNode)
    (suitePath : String) (beforeAllSuccess : Bool) (st : RunState) : RunState :=
  let runAfterAll := decide (node.path ∈ st.executed) && beforeAllSuccess
  if runAfterAll then
    if blk.afterAllHooks.isEmpty then st
    else
      let r := runHooksM blk.afterAllHooks
      let st1 := { st with log := st.log ++ r.1 }
      if r.2.success then st1
      else
        { st1 with
          results := st1.results ++
            [({ suite := suitePath, test := "(afterAll hook)",
                status := .failed, duration := 0, error := r.2.error } : TestResult)],
          events := st1.events ++
            [TestEvent.fail suitePath "(afterAll hook)" 0 r.2.error],
          bail := st1.bail || opts.bail }
  else st

mutual
/-- runDescribeBlock: stop at once under a raised bail flag, mark the
block as entered, run the before-all step, then (only under before-all
success and no bail) the block's own tests and then its children, and
finally the after-all step.  Returns the state and the continue flag
(the negated global bail flag). -/
def runDB (opts : RunOptions) (node : RNode) (b : DB) (st : RunState) :
    RunState × Bool :=
  match b with
  | .node blk tests children =>
    if st.bail then (st, false)
    else
      let suitePath := getSuitePath node
      let st0 := { st with executed := st.executed ++ [node.path] }
      let ba := beforeAllStep opts node suitePath st0
      let st2 := if ba.2 && !ba.1.bail then
        runTestsLoop opts node suitePath tests ba.1 else ba.1
      let st3 := if ba.2 && !st2.bail then
        runChildrenM opts node children 0 st2 else st2
      let st4 := afterAllStep opts blk node suitePath ba.2 st3
      (st4, !st4.bail)

/-- The child loop of runDescribeBlock (step 3): check bail before each
child, recurse, and on a stop signal raise bail and stop the loop. -/
def runChildrenM (opts : RunOptions) (parent : RNode) :
    DBList → Nat → RunState → RunState
  | .nil, _, st => st
  | .cons c cs, i, st =>
    if st.bail then st
    else
      let r := runDB opts (.child c.blk i parent) c st
      if r.2 then runChildrenM opts parent cs (i + 1) r.1
      else { r.1 with bail := true }
end

/-- The top-level loop of runTests: visit each top-level suite in
declaration order, stopping once the global bail flag is raised. -/
def runTopLevel (opts : RunOptions) (rootNode : RNode) :
    DBList → Nat → RunState → RunState
  | .nil, _, st => st
  | .cons c cs, i, st =>
    let r := runDB opts (.child c.blk i rootNode) c st
    if r.1.bail then r.1 else runTopLevel opts rootNode cs (i + 1) r.1

/-- runTests: reset the run-time flags (the fresh initial state), visit
the root's children in order, then append the final complete event
carrying the accumulated results.  The root's own test list is never
consulted. -/
def runTestsM (root : DB) (opts : RunOptions) : RunState :=
  let st := runTopLevel opts (.root root.blk) root.children 0 {}
  { st with events := st.events ++ [TestEvent.complete st.results] }

structure TestMeta where
  suite : String
  test : String
  deriving DecidableEq

mutual
/-- The traversal of getTestList: a block's tests are listed only when
its suite path is non-empty (the implicit root's path is the empty
string, which is falsy), then the children are traversed in order. -/
def getTestListAux (node : RNode) (b : DB) : List TestMeta :=
  match b with
  | .node _ tests children =>
    let sp := getSuitePath node
    (if sp == "" then [] else
      tests.map (fun t => ({ suite := sp, test := t.name } : TestMeta))) ++
      getTestListAuxL node children 0

def getTestListAuxL (parent : RNode) : DBList → Nat → List TestMeta
  | .nil, _ => []
  | .cons c cs, i =>
    getTestListAux (.child c.blk i parent) c ++ getTestListAuxL parent cs (i + 1)
end

/-- getTestList: traverse the whole registered tree from the root. -/
def getTestListM (root : DB) : List TestMeta :=
  getTestListAux (.root root.blk) root

/-! ## The suite registry (src/dsl.ts): describe / it / hook registration -/

/-- One character of JS word (`\w`): letters, digits, underscore. -/
def isWordChar (c : Char) : Bool :=
  c.isAlphanum || c == '_'

/-- The scan behind `name.replace(/@\w+/g, ...)`: walk the characters,
removing each maximal `@word` token and collecting the words; an `@`
not followed by a word character is kept (the pattern needs at least
one word character).  The second argument is `some acc` while inside a
candidate tag whose (reversed) collected letters are `acc`. -/
def tagsGo : List Char → Option (List Char) → List Char × List String
  | [], none => ([], [])
  | [], some acc =>
    if acc.isEmpty then (['@'], []) else ([], [String.mk acc.reverse])
  | c :: rest, none =>
    if c == '@' then tagsGo rest (some [])
    else
      let r := tagsGo rest none
      (c :: r.1, r.2)
  | c :: rest, some acc =>
    if isWordChar c then tagsGo rest (some (c :: acc))
    else
      let closed : List Char × List String :=
        if acc.isEmpty then (['@'], []) else ([], [String.mk acc.reverse])
      if c == '@' then
        let r := tagsGo rest (some [])
        (closed.1 ++ r.1, closed.2 ++ r.2)
      else
        let r := tagsGo rest none
        (closed.1 ++ c :: r.1, closed.2 ++ r.2)

/-- JS String.prototype.trim on a character list. -/
def trimChars (cs : List Char) : List Char :=
  ((cs.dropWhile Char.isWhitespace).reverse.dropWhile Char.isWhitespace).reverse

/-- extractTags: strip every `@word` token from the name, trim the
remainder, and return the cleaned name with the collected tags. -/
def extractTags (name : String) : String × List String :=
  let r := tagsGo name.toList none
  (String.mk (trimChars r.1), r.2)

mutual
/-- A registration call as the DSL sees it while a test file executes:
a describe with its synchronously-run body, an it with the modelled
test body, or one of the four hook registrations. -/
inductive RegOp : Type where
  | describe (name : String) (body : RegOps)
  | it (name : String) (effs : List String) (err : Option Err)
  | beforeAllR (h : Hook)
  | beforeEachR (h : Hook)
  | afterEachR (h : Hook)
  | afterAllR (h : Hook)

/-- A sequence of registration calls (a describe body / a test file). -/
inductive RegOps : Type where
  | nil
  | cons (op : RegOp) (ops : RegOps)
end

def DBList.push : DBList → DB → DBList
  | .nil, c => .cons c .nil
  | .cons x xs, c => .cons x (xs.push c)

def DBList.length : DBList → Nat
  | .nil => 0
  | .cons _ xs => xs.length + 1

mutual
/-- Replace the subtree at a child-index path by applying `f` to it
(identity when the path points outside the tree; registration only
ever uses valid paths). -/
def modifyDB : DB → List Nat → (DB → DB) → DB
  | b, [], f => f b
  | .node blk ts cs, i :: is, f => .node blk ts (modifyDBL cs i is f)

def modifyDBL : DBList → Nat → List Nat → (DB → DB) → DBList
  | .nil, _, _, _ => .nil
  | .cons c cs, 0, is, f => .cons (modifyDB c is f) cs
  | .cons c cs, n + 1, is, f => .cons c (modifyDBL cs n is f)
end

mutual
/-- Look up the subtree at a child-index path. -/
def getDB : DB → List Nat → Option DB
  | b, [] => some b
  | .node _ _ cs, i :: is => getDBL cs i is

def getDBL : DBList → Nat → List Nat → Option DB
  | .nil, _, _ => none
  | .cons c _, 0, is => getDB c is
  | .cons _ cs, n + 1, is => getDBL cs n is
end

/-- The module state of src/dsl.ts: the root describe tree, and the
`currentDescribeBlock` cursor as the path of the block it points to.
The cursor variable is initialised to the root block; the model keeps
it an Option because the guards in `it` and the hook registrations
test it for null, and `none` is the hypothetical null state those
guards check for. -/
structure RegState where
  root : DB
  cur : Option (List Nat)

/-- createDescribeBlock('Root', null) followed by
`currentDescribeBlock = rootDescribeBlock`. -/
def initRegState : RegState :=
  { root := .node { name := "Root" } [] .nil, cur := some [] }

def DB.addChildBlk (b : DB) (blk : Blk) : DB :=
  match b with
  | .node bl ts cs => .node bl ts (cs.push (.node blk [] .nil))

def DB.addTest (b : DB) (t : Test) : DB :=
  match b with
  | .node bl ts cs => .node bl (ts ++ [t]) cs

def DB.addHook (b : DB) (ty : HookType) (h : Hook) : DB :=
  match b with
  | .node bl ts cs =>
    match ty with
    | .beforeAll => .node { bl with beforeAllHooks := bl.beforeAllHooks ++ [h] } ts cs
    | .beforeEach => .node { bl with beforeEachHooks := bl.beforeEachHooks ++ [h] } ts cs
    | .afterEach => .node { bl with afterEachHooks := bl.afterEachHooks ++ [h] } ts cs
    | .afterAll => .node { bl with afterAllHooks := bl.afterAllHooks ++ [h] } ts cs

/-- The registration-misuse message thrown by `it` when the cursor is
null (quotes of the original message elided). -/
def itMisuseMsg : String :=
  "Cannot call it outside of a describe block (or globally if supported)."

mutual
/-- Apply one registration call to the module state.  The second
component is the error such a call throws to the registering caller,
if any.  `describe` creates and appends the child block, moves the
cursor into it, runs the body, and restores the cursor even when the
body throws (try/finally).  `it` and the hook registrations first test
the cursor for null and otherwise append to the current block. -/
def applyOpM : RegOp → RegState → RegState × Option String
  | .describe name body, st =>
    match st.cur with
    | none => (st, some "TypeError: currentDescribeBlock is not an object")
    | some p =>
      let clean := (extractTags name).1
      let i := match getDB st.root p with
        | some b => b.children.length
        | none => 0
      let st1 : RegState :=
        { root := modifyDB st.root p (fun b => b.addChildBlk { name := clean }),
          cur := some (p ++ [i]) }
      let r := applyOpsM body st1
      ({ r.1 with cur := some p }, r.2)
  | .it name effs err, st =>
    match st.cur with
    | none => (st, some itMisuseMsg)
    | some p =>
      let e := extractTags name
      ({ st with root := modifyDB st.root p (fun b =>
          b.addTest { name := e.1, effs := effs, err := err, tags := e.2 }) }, none)
  | .beforeAllR h, st =>
    match st.cur with
    | none => (st, some "Cannot call beforeAll outside of a describe block.")
    | some p =>
      ({ st with root := modifyDB st.root p (fun b => b.addHook .beforeAll h) }, none)
  | .beforeEachR h, st =>
    match st.cur with
    | none => (st, some "Cannot call beforeEach outside of a describe block.")
    | some p =>
      ({ st with root := modifyDB st.root p (fun b => b.addHook .beforeEach h) }, none)
  | .afterEachR h, st =>
    match st.cur with
    | none => (st, some "Cannot call afterEach outside of a describe block.")
    | some p =>
      ({ st with root := modifyDB st.root p (fun b => b.addHook .afterEach h) }, none)
  | .afterAllR h, st =>
    match st.cur with
    | none => (st, some "Cannot call afterAll outside of a describe block.")
    | some p =>
      ({ st with root := modifyDB st.root p (fun b => b.addHook .afterAll h) }, none)

/-- Run a sequence of registration calls; a thrown error aborts the
remainder of the sequence and propagates. -/
def applyOpsM : RegOps → RegState → RegState × Option String
  | .nil, st => (st, none)
  | .cons op ops, st =>
    let r := applyOpM op st
    match r.2 with
    | some e => (r.1, some e)
    | none => applyOpsM ops r.1
end

/-! ## The error normalizer (parseError in src/runner.ts) -/

/-- The SafeError record with its real string fields, for the error
normalizer model. -/
structure SafeErrS where
  name : Option String := none
  message : String
  file : Option String := none
  line : Option Nat := none
  column : Option Nat := none
  stack : Option (List String) := none
  deriving DecidableEq

/-- A thrown JavaScript value as parseError inspects it: either
error-like (`e instanceof Error`, with name / message / optional stack
string), or not.  `coerce n` is the outcome of the n-th `String(e)`
conversion performed on the value — a conversion runs user code
(toString) and may itself throw, possibly differently on each call. -/
structure JSVal where
  isError : Bool
  errName : String := ""
  errMessage : String := ""
  errStack : Option String := none
  coerce : Nat → Except Unit String

/-- JS `stack.split('\n')` on a character list. -/
def splitLines : List Char → List (List Char)
  | [] => [[]]
  | c :: cs =>
    let r := splitLines cs
    if c = '\n' then [] :: r
    else
      match r with
      | l :: ls => (c :: l) :: ls
      | [] => [[c]]

def listStartsWith : List Char → List Char → Bool
  | _, [] => true
  | [], _ :: _ => false
  | c :: cs, p :: ps => c == p && listStartsWith cs ps

def containsSub : List Char → List Char → Bool
  | [], pat => listStartsWith [] pat
  | c :: rest, pat => listStartsWith (c :: rest) pat || containsSub rest pat

def takeDigits : List Char → List Char × List Char
  | [] => ([], [])
  | c :: cs =>
    if c.isDigit then
      let r := takeDigits cs
      (c :: r.1, r.2)
    else ([], c :: cs)

def digitsToNat (ds : List Char) : Nat :=
  ds.foldl (fun n c => n * 10 + (c.toNat - 48)) 0

/-- The `(.+?):(\d+):(\d+)` tail of stack-frame patterns 1 and 4: find
the least split of the text into a non-empty path, a line number and a
column number (the lazy `.+?` grows one character at a time, and a
match can only complete at a colon).  When `needParen` is set the
column must be followed by a closing parenthesis (pattern 4). -/
def lazyPathSplit (needParen : Bool) : List Char → List Char → Option (String × Nat × Nat)
  | [], _ => none
  | c :: rest, acc =>
    let keepGoing := fun (_ : Unit) => lazyPathSplit needParen rest (c :: acc)
    if c = ':' && !acc.isEmpty then
      match takeDigits rest with
      | ([], _) => keepGoing ()
      | (d1, rest1) =>
        match rest1 with
        | ':' :: rest2 =>
          match takeDigits rest2 with
          | ([], _) => keepGoing ()
          | (d2, rest3) =>
            if needParen then
              match rest3 with
              | ')' :: _ => some (String.mk acc.reverse, digitsToNat d1, digitsToNat d2)
              | _ => keepGoing ()
            else some (String.mk acc.reverse, digitsToNat d1, digitsToNat d2)
        | _ => keepGoing ()
    else keepGoing ()

/-- The `([A-Z]:\\[^:]+):(\d+):(\d+)` body of stack-frame patterns 2
and 3: an upper-case drive letter, `:\`, a non-empty colon-free path
segment, then line and column; with `needParen`, a closing parenthesis
after the column (pattern 3). -/
def winPathSplit (needParen : Bool) (cs : List Char) : Option (String × Nat × Nat) :=
  match cs with
  | c0 :: ':' :: '\\' :: rest =>
    if c0.isUpper then
      let seg := rest.takeWhile (fun c => c ≠ ':')
      let rest1 := rest.dropWhile (fun c => c ≠ ':')
      if seg.isEmpty then none
      else
        match rest1 with
        | ':' :: rest2 =>
          match takeDigits rest2 with
          | ([], _) => none
          | (d1, rest3) =>
            match rest3 with
            | ':' :: rest4 =>
              match takeDigits rest4 with
              | ([], _) => none
              | (d2, rest5) =>
                let file := String.mk (c0 :: ':' :: '\\' :: seg)
                if needParen then
                  match rest5 with
                  | ')' :: _ => some (file, digitsToNat d1, digitsToNat d2)
                  | _ => none
                else some (file, digitsToNat d1, digitsToNat d2)
            | _ => none
        | _ => none
    else none
  | _ => none

/-- Find the first `(` that follows a whitespace character and return
the text after it (the `\s+\(` of patterns 3 and 4; the model anchors
on the first such parenthesis). -/
def afterParen : List Char → Option (List Char)
  | [] => none
  | [_] => none
  | c1 :: c2 :: rest =>
    if c1.isWhitespace && c2 = '(' then some rest
    else afterParen (c2 :: rest)

/-- Try the four stack-frame patterns of parseError on one trimmed
stack line, in the source's order: the line must start with "at ",
then a direct file:/// URL, a direct Windows path, a parenthesized
Windows path, or a parenthesized file:/// URL. -/
def matchFrameLine (lineCs : List Char) : Option (String × Nat × Nat) :=
  if !listStartsWith lineCs ['a', 't', ' '] then none
  else
    let afterAt := (lineCs.drop 2).dropWhile Char.isWhitespace
    let p1 :=
      if listStartsWith afterAt "file:///".toList then
        lazyPathSplit false (afterAt.drop 8) []
      else none
    match p1 with
    | some r => some r
    | none =>
      match winPathSplit false afterAt with
      | some r => some r
      | none =>
        match afterParen afterAt with
        | none => none
        | some inner =>
          match winPathSplit true inner with
          | some r => some r
          | none =>
            if listStartsWith inner "file:///".toList then
              lazyPathSplit true (inner.drop 8) []
            else none

/-- One recognized stack frame. -/
structure Frame where
  file : String
  line : Nat
  column : Nat
  isTestFile : Bool
  deriving DecidableEq

/-- Does the file path look like a test source file (path convention
used by parseError). -/
def isTestFileName (file : String) : Bool :=
  containsSub file.toList "\\test\\".toList ||
  containsSub file.toList "/test/".toList ||
  listStartsWith file.toList.reverse (".test.ts".toList.reverse)

/-- Scan the trimmed stack lines for recognizable frames, in order. -/
def collectFrames (lines : List String) : List Frame :=
  lines.filterMap (fun l =>
    match matchFrameLine l.toList with
    | some r => some { file := r.1, line := r.2.1, column := r.2.2,
                       isTestFile := isTestFileName r.1 }
    | none => none)

/-- The stable sort by the test-file-first comparator: frames from test
files first, otherwise original order kept. -/
def sortFramesTestFirst (fs : List Frame) : List Frame :=
  fs.filter (fun f => f.isTestFile) ++ fs.filter (fun f => !f.isTestFile)

/-- parseError: for an error-like value, take name and message, split
the (truthy) stack into trimmed lines and pick the best recognized
frame; for other values, coerce to a string message.  The whole body
runs in a try whose catch degrades to an "Unknown error (...)" record
— but the catch itself performs another `String(e)` coercion, which
can throw out of parseError. -/
def parseErrorM (e : JSVal) : Except Unit SafeErrS :=
  let tryBody : Except Unit SafeErrS :=
    if e.isError then
      let lines :=
        match e.errStack with
        | some stck =>
          if stck == "" then []
          else (splitLines stck.toList).map (fun l => String.mk (trimChars l))
        | none => []
      let frames := collectFrames lines
      match sortFramesTestFirst frames with
      | f :: _ =>
        .ok { name := some e.errName, message := e.errMessage,
              file := some f.file, line := some f.line, column := some f.column,
              stack := some lines }
      | [] => .ok { name := some e.errName, message := e.errMessage, stack := some lines }
    else
      match e.coerce 0 with
      | .ok s => .ok { message := s }
      | .error u => .error u
  match tryBody with
  | .ok r => .ok r
  | .error _ =>
    match e.coerce 1 with
    | .ok s => .ok { message := "Unknown error (" ++ s ++ ")" }
    | .error u => .error u

/-! ## Specification-side definitions

These re-state, in the spec's own vocabulary, properties the claims
compare the code against; they are deliberately independent of the
implementation definitions above. -/

/-- The root-to-node list of blocks, outermost ancestor first — the
"path from the root to that node" of the hook-inheritance contract. -/
def pathBlks : RNode → List Blk
  | .root b => [b]
  | .child b _ p => pathBlks p ++ [b]

def isStartE : TestEvent → Bool
  | .start _ _ => true
  | _ => false

def isFailE : TestEvent → Bool
  | .fail _ _ _ _ => true
  | _ => false

def hasFailE (es : List TestEvent) : Bool :=
  es.any isFailE

def noStartE (es : List TestEvent) : Bool :=
  es.all (fun e => !isStartE e)

/-- The temporal bail contract on an event trace: once a fail event has
occurred, no start event occurs any more. -/
def bailQuiet : List TestEvent → Bool
  | [] => true
  | e :: es => if isFailE e then noStartE es else bailQuiet es

/-! ## Helper lemmas -/

theorem foldl_append_eq_join {α β : Type} (f : α → List β) (l : List α) :
    ∀ init : List β,
      l.foldl (fun acc b => acc ++ f b) init = init ++ (l.map f).flatten := by
  induction l with
  | nil => intro init; simp
  | cons a l ih => intro init; simp [List.foldl_cons, ih (init ++ f a)]

theorem blockChain_eq (n : RNode) : blockChain n = (pathBlks n).reverse := by
  induction n with
  | root b => simp [blockChain, pathBlks]
  | child b i p ih => simp [blockChain, pathBlks, ih]

/-- The before-each chain and the test body both succeeded. -/
def stageOk (node : RNode) (t : Test) : Bool :=
  (runHooksM (collectHooks node .beforeEach)).2.success && t.err == none

/-- The final pass verdict of one test run (after-each included). -/
def testOutcomeOk (node : RNode) (t : Test) : Bool :=
  stageOk node t && (runHooksM (collectHooks node .afterEach)).2.success

/-- The error recorded for one test run: a before-each failure first,
else the body's thrown value, else a failing after-each's error. -/
def recordedErr (node : RNode) (t : Test) : Option Err :=
  if !(runHooksM (collectHooks node .beforeEach)).2.success then
    (runHooksM (collectHooks node .beforeEach)).2.error
  else
    match t.err with
    | some e => some e
    | none =>
      if (runHooksM (collectHooks node .afterEach)).2.success then none
      else (runHooksM (collectHooks node .afterEach)).2.error

/-- Full characterization of one test run as a state transformation. -/
theorem runTestM_eq (opts : RunOptions) (node : RNode) (sp : String)
    (t : Test) (st : RunState) :
    runTestM opts node sp t st =
      { st with
        log := st.log ++ (runHooksM (collectHooks node .beforeEach)).1
          ++ (if (runHooksM (collectHooks node .beforeEach)).2.success then t.effs else [])
          ++ (runHooksM (collectHooks node .afterEach)).1,
        results := st.results ++
          [⟨sp, t.name, if testOutcomeOk node t then .passed else .failed, 0,
            recordedErr node t⟩],
        events := st.events ++ [TestEvent.start sp t.name] ++
          (if testOutcomeOk node t then [TestEvent.pass sp t.name 0]
           else [TestEvent.fail sp t.name 0 (recordedErr node t)]),
        bail := if testOutcomeOk node t then st.bail else st.bail || opts.bail } := by
  cases hbe : (runHooksM (collectHooks node .beforeEach)).2.success <;>
    cases ht : t.err <;>
      cases hae : (runHooksM (collectHooks node .afterEach)).2.success <;>
        simp [runTestM, stageOk, testOutcomeOk, recordedErr, hbe, ht, hae]

theorem noStartE_append (l1 l2 : List TestEvent) :
    noStartE (l1 ++ l2) = (noStartE l1 && noStartE l2) := by
  simp [noStartE, List.all_append]

theorem hasFailE_append (l1 l2 : List TestEvent) :
    hasFailE (l1 ++ l2) = (hasFailE l1 || hasFailE l2) := by
  simp [hasFailE, List.any_append]

theorem bailQuiet_of_noStart :
    ∀ l : List TestEvent, noStartE l = true → bailQuiet l = true
  | [], _ => rfl
  | e :: es, h => by
    have h' : noStartE es = true := by
      simp [noStartE] at h ⊢
      exact fun x hx => h.2 x hx
    cases hf : isFailE e <;> simp [bailQuiet, hf, h', bailQuiet_of_noStart es h']

theorem bailQuiet_append_noStart (l1 l2 : List TestEvent)
    (h1 : bailQuiet l1 = true) (h2 : noStartE l2 = true) :
    bailQuiet (l1 ++ l2) = true := by
  induction l1 with
  | nil => simpa using bailQuiet_of_noStart l2 h2
  | cons e es ih =>
    cases hf : isFailE e <;> simp [bailQuiet, hf] at h1 ⊢
    · exact ih h1
    · simp [noStartE_append, h1, h2]

theorem bailQuiet_append_of_noFail (l1 l2 : List TestEvent)
    (h1 : hasFailE l1 = false) :
    bailQuiet (l1 ++ l2) = bailQuiet l2 := by
  induction l1 with
  | nil => simp
  | cons e es ih =>
    simp [hasFailE] at h1
    simp [bailQuiet, h1.1, ih (by simp [hasFailE]; exact fun x hx => h1.2 x hx)]

theorem lineageWalk_fresh (ran : List (List Nat)) :
    ∀ (n : RNode), ∀ pr ∈ lineageWalk n ran, pr.2 ∉ ran := by
  intro n
  induction n with
  | root b =>
    intro pr hpr
    by_cases hm : RNode.path (.root b) ∈ ran
    · simp [lineageWalk, hm] at hpr
    · simp [lineageWalk, hm] at hpr
      rw [hpr]
      exact hm
  | child b i p ih =>
    intro pr hpr
    by_cases hm : RNode.path (.child b i p) ∈ ran
    · simp [lineageWalk, hm] at hpr
    · simp [lineageWalk, hm] at hpr
      rcases hpr with hpr | hpr
      · exact ih pr hpr
      · rw [hpr]
        exact hm

theorem lineageWalk_path_le (ran : List (List Nat)) :
    ∀ (n : RNode), ∀ pr ∈ lineageWalk n ran, pr.2.length ≤ n.path.length := by
  intro n
  induction n with
  | root b =>
    intro pr hpr
    by_cases hm : RNode.path (.root b) ∈ ran
    · simp [lineageWalk, hm] at hpr
    · simp [lineageWalk, hm] at hpr
      rw [hpr]
  | child b i p ih =>
    intro pr hpr
    by_cases hm : RNode.path (.child b i p) ∈ ran
    · simp [lineageWalk, hm] at hpr
    · simp [lineageWalk, hm] at hpr
      rcases hpr with hpr | hpr
      · calc pr.2.length ≤ p.path.length := ih pr hpr
          _ ≤ (RNode.path (.child b i p)).length := by simp [RNode.path]
      · rw [hpr]

theorem lineageWalk_paths_nodup (ran : List (List Nat)) (n : RNode) :
    ((lineageWalk n ran).map (fun pr => pr.2)).Nodup := by
  induction n with
  | root b =>
    by_cases hm : RNode.path (.root b) ∈ ran <;> simp [lineageWalk, hm]
  | child b i p ih =>
    by_cases hm : RNode.path (.child b i p) ∈ ran
    · simp [lineageWalk, hm]
    · simp only [lineageWalk, hm, if_neg, not_false_iff, List.map_append, List.map_cons,
        List.map_nil]
      refine List.Nodup.append ih (List.nodup_singleton _) ?_
      intro a ha hb
      rw [List.mem_singleton] at hb
      rcases List.mem_map.mp ha with ⟨pr, hpr, rfl⟩
      have hle := lineageWalk_path_le ran p pr hpr
      rw [hb] at hle
      simp [RNode.path] at hle

/-- The relation every runner step establishes between the state it was
given and the state it returns: the log, the entered set, the
ranBeforeAll set and the result list only grow at their end, appended
results are never 'skipped', the ranBeforeAll set stays duplicate-free,
the bail flag is never lowered, and — when bail is configured — the
event trace stays bail-quiet with the bail flag raised whenever a fail
event has occurred. -/
def StRel (opts : RunOptions) (st st' : RunState) : Prop :=
  (∃ l, st'.log = st.log ++ l) ∧
  (∃ l, st'.executed = st.executed ++ l) ∧
  (∃ l, st'.ranBA = st.ranBA ++ l) ∧
  (st.ranBA.Nodup → st'.ranBA.Nodup) ∧
  (∃ rs, st'.results = st.results ++ rs ∧ ∀ r ∈ rs, r.status ≠ TestStatus.skipped) ∧
  (st.bail = true → st'.bail = true) ∧
  (opts.bail = true → bailQuiet st.events = true →
    (hasFailE st.events = true → st.bail = true) →
    bailQuiet st'.events = true ∧ (hasFailE st'.events = true → st'.bail = true))

theorem StRel.refl (opts : RunOptions) (st : RunState) : StRel opts st st :=
  ⟨⟨[], by simp⟩, ⟨[], by simp⟩, ⟨[], by simp⟩, fun h => h,
    ⟨[], by simp, by simp⟩, fun h => h, fun _ hq hf => ⟨hq, hf⟩⟩

theorem StRel.trans {opts : RunOptions} {s1 s2 s3 : RunState}
    (h12 : StRel opts s1 s2) (h23 : StRel opts s2 s3) : StRel opts s1 s3 := by
  obtain ⟨⟨la, hla⟩, ⟨lb, hlb⟩, ⟨lc, hlc⟩, hnd, ⟨rs, hrs, hrsok⟩, hbm, hev⟩ := h12
  obtain ⟨⟨la2, hla2⟩, ⟨lb2, hlb2⟩, ⟨lc2, hlc2⟩, hnd2, ⟨rs2, hrs2, hrsok2⟩, hbm2, hev2⟩ := h23
  refine ⟨⟨la ++ la2, by simp [hla2, hla]⟩, ⟨lb ++ lb2, by simp [hlb2, hlb]⟩,
    ⟨lc ++ lc2, by simp [hlc2, hlc]⟩, fun h => hnd2 (hnd h),
    ⟨rs ++ rs2, by simp [hrs2, hrs], ?_⟩, fun h => hbm2 (hbm h), ?_⟩
  · intro r hr
    rcases List.mem_append.mp hr with hr | hr
    · exact hrsok r hr
    · exact hrsok2 r hr
  · intro hob hq hf
    obtain ⟨hq2, hf2⟩ := hev hob hq hf
    exact hev2 hob hq2 hf2

/-- Lifting a step to the guarded form `if c then f st else st`. -/
theorem StRel.guarded {opts : RunOptions} (c : Prop) [Decidable c] {st : RunState}
    (f : RunState → RunState) (h : StRel opts st (f st)) :
    StRel opts st (if c then f st else st) := by
  by_cases hc : c
  · simpa [hc] using h
  · simpa [hc] using StRel.refl opts st

theorem exists_app0 {α : Type} (l : List α) : ∃ t, l = l ++ t :=
  ⟨[], by simp⟩

theorem exists_app1 {α : Type} (l a : List α) : ∃ t, l ++ a = l ++ t :=
  ⟨a, rfl⟩

theorem exists_app3 {α : Type} (l a b c : List α) : ∃ t, l ++ a ++ b ++ c = l ++ t :=
  ⟨a ++ b ++ c, by simp⟩

theorem strel_runTestM (opts : RunOptions) (node : RNode) (sp : String)
    (t : Test) (st : RunState) (hb : st.bail = false) :
    StRel opts st (runTestM opts node sp t st) := by
  rw [runTestM_eq]
  refine ⟨exists_app3 _ _ _ _, exists_app0 _, exists_app0 _, fun h => h,
    ⟨_, rfl, ?_⟩, ?_, ?_⟩
  · intro r hr
    rw [List.mem_singleton] at hr
    rw [hr]
    cases hto : testOutcomeOk node t <;> simp [hto]
  · intro h
    rw [hb] at h
    exact absurd h (by simp)
  · intro hob hq hf
    have hnf : hasFailE st.events = false := by
      cases hfe : hasFailE st.events
      · rfl
      · rw [hb] at hf
        exact absurd (hf hfe) (by simp)
    cases hto : testOutcomeOk node t <;>
      simp only [hto, Bool.false_eq_true, if_true, if_false, ite_true, ite_false] <;>
      constructor
    · rw [List.append_assoc, bailQuiet_append_of_noFail _ _ hnf]
      simp [bailQuiet, isFailE, isStartE, noStartE]
    · intro _
      simp [hob]
    · rw [List.append_assoc, bailQuiet_append_of_noFail _ _ hnf]
      simp [bailQuiet, isFailE, isStartE, noStartE]
    · intro h
      rw [List.append_assoc, hasFailE_append, hnf] at h
      simp [hasFailE, isFailE] at h

theorem strel_runTestsLoop (opts : RunOptions) (node : RNode) (sp : String) :
    ∀ (ts : List Test) (st : RunState),
      StRel opts st (runTestsLoop opts node sp ts st)
  | [], st => StRel.refl opts st
  | t :: ts, st => by
    by_cases hb : st.bail = true
    · simpa [runTestsLoop, hb] using StRel.refl opts st
    · have hb2 : st.bail = false := by simpa using hb
      by_cases hs : shouldRunM opts sp t = true
      · rw [runTestsLoop]
        simp only [hb, hs, Bool.false_eq_true, ite_true, ite_false, if_true, if_false]
        exact StRel.trans (strel_runTestM opts node sp t st hb2)
          (strel_runTestsLoop opts node sp ts _)
      · rw [runTestsLoop]
        simp only [hb, hs, Bool.false_eq_true, ite_true, ite_false, if_true, if_false]
        exact strel_runTestsLoop opts node sp ts st

theorem strel_beforeAllStep (opts : RunOptions) (node : RNode) (sp : String)
    (st : RunState) :
    StRel opts st (beforeAllStep opts node sp st).1 := by
  by_cases hm : node.path ∈ st.ranBA
  · simpa [beforeAllStep, hm] using StRel.refl opts st
  · have hnd : st.ranBA.Nodup →
        (st.ranBA ++ (lineageWalk node st.ranBA).map (fun pr => pr.2)).Nodup := by
      intro h
      refine List.Nodup.append h (lineageWalk_paths_nodup st.ranBA node) ?_
      intro a ha hb
      rcases List.mem_map.mp hb with ⟨pr, hpr, rfl⟩
      exact lineageWalk_fresh st.ranBA node pr hpr ha
    by_cases he : ((lineageWalk node st.ranBA).foldl
        (fun acc pr => acc ++ pr.1.beforeAllHooks) []).isEmpty = true
    · have heq : (beforeAllStep opts node sp st).1
          = { st with ranBA := st.ranBA ++
                (lineageWalk node st.ranBA).map (fun pr => pr.2) } := by
        simp [beforeAllStep, hm, he, markLineage]
      rw [heq]
      exact ⟨exists_app0 _, exists_app0 _, exists_app1 _ _, hnd,
        ⟨[], by simp, by simp⟩, fun h => h, fun _ hq hf => ⟨hq, hf⟩⟩
    · by_cases hsucc : (runHooksM ((lineageWalk node st.ranBA).foldl
          (fun acc pr => acc ++ pr.1.beforeAllHooks) [])).2.success = true
      · have heq : (beforeAllStep opts node sp st).1
            = { st with
                ranBA := st.ranBA ++ (lineageWalk node st.ranBA).map (fun pr => pr.2),
                log := st.log ++ (runHooksM ((lineageWalk node st.ranBA).foldl
                  (fun acc pr => acc ++ pr.1.beforeAllHooks) [])).1 } := by
          simp [beforeAllStep, hm, he, hsucc, markLineage]
        rw [heq]
        exact ⟨exists_app1 _ _, exists_app0 _, exists_app1 _ _, hnd,
          ⟨[], by simp, by simp⟩, fun h => h, fun _ hq hf => ⟨hq, hf⟩⟩
      · have heq : (beforeAllStep opts node sp st).1
            = { st with
                ranBA := st.ranBA ++ (lineageWalk node st.ranBA).map (fun pr => pr.2),
                log := st.log ++ (runHooksM ((lineageWalk node st.ranBA).foldl
                  (fun acc pr => acc ++ pr.1.beforeAllHooks) [])).1,
                results := st.results ++ [⟨sp, "(beforeAll hook)", TestStatus.failed, 0,
                  (runHooksM ((lineageWalk node st.ranBA).foldl
                    (fun acc pr => acc ++ pr.1.beforeAllHooks) [])).2.error⟩],
                events := st.events ++ [TestEvent.fail sp "(beforeAll hook)" 0
                  (runHooksM ((lineageWalk node st.ranBA).foldl
                    (fun acc pr => acc ++ pr.1.beforeAllHooks) [])).2.error],
                bail := st.bail || opts.bail } := by
          simp [beforeAllStep, hm, he, hsucc, markLineage]
        rw [heq]
        refine ⟨exists_app1 _ _, exists_app0 _, exists_app1 _ _, hnd,
          ⟨_, rfl, ?_⟩, ?_, ?_⟩
        · intro r hr
          rw [List.mem_singleton] at hr
          rw [hr]
          simp
        · intro h
          simp [h]
        · intro hob hq hf
          constructor
          · exact bailQuiet_append_noStart _ _ hq (by simp [noStartE, isStartE])
          · intro _
            simp [hob]

theorem strel_afterAllStep (opts : RunOptions) (blk : Blk) (node : RNode)
    (sp : String) (ok : Bool) (st : RunState) :
    StRel opts st (afterAllStep opts blk node sp ok st) := by
  by_cases hr : (decide (node.path ∈ st.executed) && ok) = true
  · by_cases he : blk.afterAllHooks.isEmpty = true
    · simpa [afterAllStep, hr, he] using StRel.refl opts st
    · by_cases hsucc : (runHooksM blk.afterAllHooks).2.success = true
      · have heq : afterAllStep opts blk node sp ok st
            = { st with log := st.log ++ (runHooksM blk.afterAllHooks).1 } := by
          simp [afterAllStep, hr, he, hsucc]
        rw [heq]
        exact ⟨exists_app1 _ _, exists_app0 _, exists_app0 _, fun h => h,
          ⟨[], by simp, by simp⟩, fun h => h, fun _ hq hf => ⟨hq, hf⟩⟩
      · have heq : afterAllStep opts blk node sp ok st
            = { st with
                log := st.log ++ (runHooksM blk.afterAllHooks).1,
                results := st.results ++ [⟨sp, "(afterAll hook)", TestStatus.failed, 0,
                  (runHooksM blk.afterAllHooks).2.error⟩],
                events := st.events ++ [TestEvent.fail sp "(afterAll hook)" 0
                  (runHooksM blk.afterAllHooks).2.error],
                bail := st.bail || opts.bail } := by
          simp [afterAllStep, hr, he, hsucc]
        rw [heq]
        refine ⟨exists_app1 _ _, exists_app0 _, exists_app0 _, fun h => h,
          ⟨_, rfl, ?_⟩, ?_, ?_⟩
        · intro r hr2
          rw [List.mem_singleton] at hr2
          rw [hr2]
          simp
        · intro h
          simp [h]
        · intro hob hq hf
          constructor
          · exact bailQuiet_append_noStart _ _ hq (by simp [noStartE, isStartE])
          · intro _
            simp [hob]
  · simpa [afterAllStep, hr] using StRel.refl opts st

mutual
theorem strel_runDB (opts : RunOptions) (node : RNode) (b : DB) (st : RunState) :
    StRel opts st (runDB opts node b st).1 := by
  cases b with
  | node blk tests children =>
    by_cases hb : st.bail = true
    · simpa [runDB, hb] using StRel.refl opts st
    · have h0 : StRel opts st { st with executed := st.executed ++ [node.path] } :=
        ⟨exists_app0 _, exists_app1 _ _, exists_app0 _, fun h => h,
          ⟨[], by simp, by simp⟩, fun h => h, fun _ hq hf => ⟨hq, hf⟩⟩
      simp only [runDB]
      rw [if_neg hb]
      generalize hba : beforeAllStep opts node (getSuitePath node)
        { st with executed := st.executed ++ [node.path] } = ba
      have h1 : StRel opts { st with executed := st.executed ++ [node.path] } ba.1 := by
        rw [← hba]
        exact strel_beforeAllStep opts node (getSuitePath node) _
      generalize hst2 : (if ba.2 && !ba.1.bail then
        runTestsLoop opts node (getSuitePath node) tests ba.1 else ba.1) = st2
      have h2 : StRel opts ba.1 st2 := by
        rw [← hst2]
        exact StRel.guarded _ _ (strel_runTestsLoop opts node (getSuitePath node) tests ba.1)
      generalize hst3 : (if ba.2 && !st2.bail then
        runChildrenM opts node children 0 st2 else st2) = st3
      have h3 : StRel opts st2 st3 := by
        rw [← hst3]
        exact StRel.guarded _ _ (strel_runChildrenM opts node children 0 st2)
      exact StRel.trans h0 (StRel.trans h1 (StRel.trans h2 (StRel.trans h3
        (strel_afterAllStep opts blk node (getSuitePath node) ba.2 st3))))

theorem strel_runChildrenM (opts : RunOptions) (parent : RNode) :
    ∀ (cs : DBList) (i : Nat) (st : RunState),
      StRel opts st (runChildrenM opts parent cs i st)
  | .nil, _, st => StRel.refl opts st
  | .cons c cs, i, st => by
    by_cases hb : st.bail = true
    · simpa [runChildrenM, hb] using StRel.refl opts st
    · have h1 := strel_runDB opts (.child c.blk i parent) c st
      rw [runChildrenM]
      simp only [hb, Bool.false_eq_true, ite_false, if_false]
      by_cases hc : (runDB opts (.child c.blk i parent) c st).2 = true
      · simp only [hc, ite_true, if_true]
        exact StRel.trans h1 (strel_runChildrenM opts parent cs (i + 1) _)
      · simp only [hc, Bool.false_eq_true, ite_false, if_false]
        exact StRel.trans h1
          ⟨exists_app0 _, exists_app0 _, exists_app0 _, fun h => h,
            ⟨[], by simp, by simp⟩, fun _ => rfl, fun _ hq _ => ⟨hq, fun _ => rfl⟩⟩
end

theorem strel_runTopLevel (opts : RunOptions) (rootNode : RNode) :
    ∀ (cs : DBList) (i : Nat) (st : RunState),
      StRel opts st (runTopLevel opts rootNode cs i st)
  | .nil, _, st => StRel.refl opts st
  | .cons c cs, i, st => by
    rw [runTopLevel]
    by_cases hb : (runDB opts (.child c.blk i rootNode) c st).1.bail = true
    · simp only [hb, ite_true, if_true]
      exact strel_runDB opts (.child c.blk i rootNode) c st
    · simp only [hb, Bool.false_eq_true, ite_false, if_false]
      exact StRel.trans (strel_runDB opts (.child c.blk i rootNode) c st)
        (strel_runTopLevel opts rootNode cs (i + 1) _)

theorem strel_completeEvent (opts : RunOptions) (st : RunState) :
    StRel opts st { st with events := st.events ++ [TestEvent.complete st.results] } := by
  refine ⟨exists_app0 _, exists_app0 _, exists_app0 _, fun h => h,
    ⟨[], by simp, by simp⟩, fun h => h, ?_⟩
  intro hob hq hf
  constructor
  · exact bailQuiet_append_noStart _ _ hq (by simp [noStartE, isStartE])
  · intro h
    have hc : hasFailE [TestEvent.complete st.results] = false := rfl
    rw [hasFailE_append, hc, Bool.or_false] at h
    exact hf h

theorem strel_runTestsM (root : DB) (opts : RunOptions) :
    StRel opts {} (runTestsM root opts) :=
  StRel.trans (strel_runTopLevel opts (.root root.blk) root.children 0 {})
    (strel_completeEvent opts _)

theorem runTestsLoop_bail (opts : RunOptions) (node : RNode) (sp : String) :
    ∀ (ts : List Test) (st : RunState), st.bail = true →
      runTestsLoop opts node sp ts st = st
  | [], _, _ => rfl
  | t :: ts, st, h => by simp [runTestsLoop, h]

/-- A visit whose before-all failed never reaches its after-all. -/
theorem afterAllStep_notOk (opts : RunOptions) (blk : Blk) (node : RNode)
    (sp : String) (st : RunState) :
    afterAllStep opts blk node sp false st = st := by
  simp [afterAllStep]

/-- An entered scope with successful before-all appends exactly its own
after-all pushes to the log. -/
theorem afterAllStep_log (opts : RunOptions) (blk : Blk) (node : RNode)
    (sp : String) (st : RunState) (hmem : node.path ∈ st.executed) :
    (afterAllStep opts blk node sp true st).log
      = st.log ++ (runHooksM blk.afterAllHooks).1 := by
  cases hl : blk.afterAllHooks with
  | nil => simp [afterAllStep, hmem, hl, runHooksM]
  | cons h hs =>
    rw [← hl]
    have he : blk.afterAllHooks.isEmpty = false := by rw [hl]; rfl
    by_cases hsucc : (runHooksM blk.afterAllHooks).2.success = true <;>
      simp [afterAllStep, hmem, he, hsucc]

/-- The failing branch of the before-all step, as one equation. -/
theorem beforeAllStep_fail_eq (opts : RunOptions) (node : RNode) (sp : String)
    (st : RunState) (hm : node.path ∉ st.ranBA)
    (hfail : (runHooksM ((lineageWalk node st.ranBA).foldl
      (fun acc pr => acc ++ pr.1.beforeAllHooks) [])).2.success = false) :
    beforeAllStep opts node sp st =
      ({ st with
          ranBA := st.ranBA ++ (lineageWalk node st.ranBA).map (fun pr => pr.2),
          log := st.log ++ (runHooksM ((lineageWalk node st.ranBA).foldl
            (fun acc pr => acc ++ pr.1.beforeAllHooks) [])).1,
          results := st.results ++ [⟨sp, "(beforeAll hook)", TestStatus.failed, 0,
            (runHooksM ((lineageWalk node st.ranBA).foldl
              (fun acc pr => acc ++ pr.1.beforeAllHooks) [])).2.error⟩],
          events := st.events ++ [TestEvent.fail sp "(beforeAll hook)" 0
            (runHooksM ((lineageWalk node st.ranBA).foldl
              (fun acc pr => acc ++ pr.1.beforeAllHooks) [])).2.error],
          bail := st.bail || opts.bail }, false) := by
  have hne : ((lineageWalk node st.ranBA).foldl
      (fun acc pr => acc ++ pr.1.beforeAllHooks) []).isEmpty = false := by
    cases hl : (lineageWalk node st.ranBA).foldl
        (fun acc pr => acc ++ pr.1.beforeAllHooks) [] with
    | nil => rw [hl] at hfail; simp [runHooksM] at hfail
    | cons h hs => rfl
  simp [beforeAllStep, hm, hne, hfail, markLineage]

/-- The cursor of the registration state survives every registration
call: describe restores it (try/finally) and the others never move it. -/
theorem applyOpM_cur (op : RegOp) (st : RegState) :
    (applyOpM op st).1.cur = st.cur := by
  cases op with
  | describe name body =>
    cases hc : st.cur with
    | none => simp [applyOpM, hc]
    | some p => simp [applyOpM, hc]
  | it name effs err =>
    cases hc : st.cur with
    | none => simp [applyOpM, hc]
    | some p => simp [applyOpM, hc]
  | beforeAllR h =>
    cases hc : st.cur with
    | none => simp [applyOpM, hc]
    | some p => simp [applyOpM, hc]
  | beforeEachR h =>
    cases hc : st.cur with
    | none => simp [applyOpM, hc]
    | some p => simp [applyOpM, hc]
  | afterEachR h =>
    cases hc : st.cur with
    | none => simp [applyOpM, hc]
    | some p => simp [applyOpM, hc]
  | afterAllR h =>
    cases hc : st.cur with
    | none => simp [applyOpM, hc]
    | some p => simp [applyOpM, hc]

theorem applyOpsM_cur : ∀ (ops : RegOps) (st : RegState),
    (applyOpsM ops st).1.cur = st.cur
  | .nil, _ => rfl
  | .cons op ops, st => by
    cases he : (applyOpM op st).2 with
    | some e => simp [applyOpsM, he, applyOpM_cur]
    | none =>
      simp [applyOpsM, he, applyOpsM_cur ops (applyOpM op st).1, applyOpM_cur]

theorem addTest_tests (b : DB) (t : Test) : (b.addTest t).tests = b.tests ++ [t] := by
  cases b
  rfl

/-- C4 (confirmed): for every suite node and phase, collectHooks returns
exactly the concatenation of the hook lists along the root-to-node
path: outermost-ancestor-first for before-all and before-each,
node-first (innermost-first) for after-each and after-all. -/
theorem collectHooks_concat_along_path (n : RNode) :
    collectHooks n .beforeAll = ((pathBlks n).map (fun b => b.beforeAllHooks)).flatten ∧
    collectHooks n .beforeEach = ((pathBlks n).map (fun b => b.beforeEachHooks)).flatten ∧
    collectHooks n .afterEach = ((pathBlks n).reverse.map (fun b => b.afterEachHooks)).flatten ∧
    collectHooks n .afterAll = ((pathBlks n).reverse.map (fun b => b.afterAllHooks)).flatten := by
  refine ⟨?_, ?_, ?_, ?_⟩ <;>
    simp only [collectHooks, blockChain_eq, foldl_append_eq_join,
      List.nil_append, List.reverse_reverse, Blk.hooksOf]

/-- The two-level scenario tree of the spec: suite "A" (before-all
pushing "bA", test "t1" pushing "t1") containing child suite "B"
(before-all pushing "bB", test "t2" pushing "t2"). -/
def sceneAB : DB :=
  .node { name := "Root" } []
    (.cons
      (.node { name := "A", beforeAllHooks := [{ effs := ["bA"] }] }
        [{ name := "t1", effs := ["t1"] }]
        (.cons
          (.node { name := "B", beforeAllHooks := [{ effs := ["bB"] }] }
            [{ name := "t2", effs := ["t2"] }] .nil)
          .nil))
      .nil)

/-- C5 (confirmed): running the registered scenario tree produces
exactly the push sequence bA, t1, bB, t2 — a suite's own tests run
before its child suites are entered, and the child's before-all fires
only when the child is first visited. -/
theorem runTests_scene_push_order :
    (runTestsM sceneAB {}).log = ["bA", "t1", "bB", "t2"] := by decide

/-- C2 (confirmed): for every test case run by runTests: a failing
before-each chain records the test as failed with the hook's error and
the test body never runs (its pushes are absent from the log); a
successful before-each and body followed by a failing after-each
records failed with the after-each error; when the before-each/body
stage failed, its earlier error is the one recorded even if an
after-each hook also fails; and the after-each chain's pushes always
follow the stage — the chain runs regardless of the outcome. -/
theorem test_failure_precedence (opts : RunOptions) (node : RNode)
    (sp : String) (t : Test) (st : RunState) :
    ((runTestM opts node sp t st).log
      = st.log ++ (runHooksM (collectHooks node .beforeEach)).1
        ++ (if (runHooksM (collectHooks node .beforeEach)).2.success then t.effs else [])
        ++ (runHooksM (collectHooks node .afterEach)).1) ∧
    ∃ r : TestResult,
      (runTestM opts node sp t st).results = st.results ++ [r] ∧
      r.suite = sp ∧ r.test = t.name ∧
      ((runHooksM (collectHooks node .beforeEach)).2.success = false →
        r.status = .failed ∧
        r.error = (runHooksM (collectHooks node .beforeEach)).2.error) ∧
      ((runHooksM (collectHooks node .beforeEach)).2.success = true → t.err = none →
        (runHooksM (collectHooks node .afterEach)).2.success = false →
        r.status = .failed ∧
        r.error = (runHooksM (collectHooks node .afterEach)).2.error) ∧
      (stageOk node t = false →
        r.status = .failed ∧
        r.error = (if (runHooksM (collectHooks node .beforeEach)).2.success then t.err
          else (runHooksM (collectHooks node .beforeEach)).2.error)) := by
  rw [runTestM_eq]
  refine ⟨rfl, _, rfl, rfl, rfl, ?_, ?_, ?_⟩
  · intro hbe
    simp [testOutcomeOk, stageOk, recordedErr, hbe]
  · intro hbe ht hae
    simp [testOutcomeOk, stageOk, recordedErr, hbe, ht, hae]
  · intro hst
    have hto : testOutcomeOk node t = false := by
      simp [testOutcomeOk, hst]
    cases hbe : (runHooksM (collectHooks node .beforeEach)).2.success
    · simp [hto, recordedErr, hbe]
    · simp [stageOk, hbe] at hst
      cases ht : t.err with
      | none => rw [ht] at hst; simp at hst
      | some e => simp [hto, recordedErr, hbe, ht]

/-- The block, node and test used to witness the precedence theorem: a
before-each hook that throws error 5 and an after-each hook that throws
error 9, around a test body that would push "body" and throw error 3. -/
def wpBlk : Blk :=
  { name := "W",
    beforeEachHooks := [{ effs := ["be"], err := some 5 }],
    afterEachHooks := [{ effs := ["ae"], err := some 9 }] }

def wpNode : RNode := .child wpBlk 0 (.root { name := "Root" })

def wpTest : Test := { name := "t", effs := ["body"], err := some 3 }

theorem test_failure_precedence_witness :
    (runHooksM (collectHooks wpNode .beforeEach)).2.success = false ∧
    (runTestM {} wpNode "W" wpTest {}).log = ["be", "ae"] ∧
    ∃ r : TestResult, (runTestM {} wpNode "W" wpTest {}).results = [r] ∧
      r.status = .failed ∧ r.error = some 5 := by
  have h := test_failure_precedence {} wpNode "W" wpTest {}
  obtain ⟨hlog, r, hres, _, _, hbe, _, _⟩ := h
  have hbeF : (runHooksM (collectHooks wpNode .beforeEach)).2.success = false := by
    decide
  obtain ⟨hs, he⟩ := hbe hbeF
  refine ⟨hbeF, ?_, r, by simpa using hres, hs, ?_⟩
  · rw [hlog]
    decide
  · rw [he]
    decide

/-- C3 (confirmed): across one runTests invocation the set of nodes
whose ranBeforeAll flag was raised stays duplicate-free (each node's
flag transitions false to true at most once, and its before-all hooks —
scheduled exactly when it is added to that set — run at most once); the
before-all step only ever appends to the flag set (a raised flag is
never cleared); and every node of the collected lineage is already
marked in the state the collected hooks then execute against, so a hook
that itself triggers traversal cannot re-run itself. -/
theorem beforeAll_once_marked_first (root : DB) (opts : RunOptions)
    (node : RNode) (st : RunState) :
    (runTestsM root opts).ranBA.Nodup ∧
    (∃ l, (beforeAllStep opts node (getSuitePath node) st).1.ranBA = st.ranBA ++ l) ∧
    (∀ pr ∈ lineageWalk node st.ranBA,
      pr.2 ∈ (markLineage (lineageWalk node st.ranBA) st).ranBA) := by
  refine ⟨?_, ?_, ?_⟩
  · exact (strel_runTestsM root opts).2.2.2.1 List.nodup_nil
  · exact (strel_beforeAllStep opts node (getSuitePath node) st).2.2.1
  · intro pr hpr
    exact List.mem_append_right _ (List.mem_map.mpr ⟨pr, hpr, rfl⟩)

def wbNode : RNode :=
  .child { name := "B", beforeAllHooks := [{ effs := ["x"] }] } 0
    (.root { name := "Root" })

theorem beforeAll_once_marked_first_witness :
    (runTestsM sceneAB {}).ranBA.Nodup ∧
    [0] ∈ (markLineage (lineageWalk wbNode []) ({} : RunState)).ranBA := by
  have h := beforeAll_once_marked_first sceneAB {} wbNode {}
  refine ⟨h.1, ?_⟩
  exact h.2.2 ({ name := "B", beforeAllHooks := [{ effs := ["x"] }] }, [0]) (by decide)

/-- C9 (confirmed): a test rejected by the filter predicate or by the
only restriction contributes nothing to the run — deleting it from the
test list leaves the loop's resulting state (events, results, log,
flags) unchanged — and no result the runner ever produces carries
status 'skipped'. -/
theorem filtered_test_invisible_and_no_skipped (opts : RunOptions)
    (node : RNode) (sp : String) (l1 l2 : List Test) (t : Test)
    (st : RunState) (root : DB)
    (hf : shouldRunM opts sp t = false) :
    runTestsLoop opts node sp (l1 ++ t :: l2) st
      = runTestsLoop opts node sp (l1 ++ l2) st ∧
    (∀ r ∈ (runTestsM root opts).results, r.status ≠ TestStatus.skipped) := by
  constructor
  · induction l1 generalizing st with
    | nil =>
      by_cases hb : st.bail = true
      · rw [List.nil_append, List.nil_append,
          runTestsLoop_bail opts node sp _ st hb,
          runTestsLoop_bail opts node sp _ st hb]
      · rw [List.nil_append, List.nil_append, runTestsLoop]
        simp [hb, hf]
    | cons t1 l1 ih =>
      by_cases hb : st.bail = true
      · rw [List.cons_append, List.cons_append,
          runTestsLoop_bail opts node sp _ st hb,
          runTestsLoop_bail opts node sp _ st hb]
      · by_cases hs : shouldRunM opts sp t1 = true
        · rw [List.cons_append, List.cons_append, runTestsLoop, runTestsLoop]
          simp only [hb, hs, Bool.false_eq_true, ite_true, ite_false, if_true, if_false]
          exact ih _
        · rw [List.cons_append, List.cons_append, runTestsLoop, runTestsLoop]
          simp only [hb, hs, Bool.false_eq_true, ite_true, ite_false, if_true, if_false]
          exact ih _
  · obtain ⟨rs, hrs, hok⟩ := (strel_runTestsM root opts).2.2.2.2.1
    intro r hr
    apply hok
    rw [hrs] at hr
    simpa using hr

theorem filtered_test_invisible_and_no_skipped_witness :
    runTestsLoop ({ only := some { test := some "t1" } } : RunOptions) wpNode "W"
        [wpTest] {}
      = runTestsLoop ({ only := some { test := some "t1" } } : RunOptions) wpNode "W"
        [] {} ∧
    (∀ r ∈ (runTestsM sceneAB ({ only := some { test := some "t1" } } : RunOptions)).results,
      r.status ≠ TestStatus.skipped) := by
  have h := filtered_test_invisible_and_no_skipped
    ({ only := some { test := some "t1" } } : RunOptions) wpNode "W" [] [] wpTest {}
    sceneAB (by decide)
  exact ⟨h.1, h.2⟩

/-- A suite whose before-all throws (error 7) after pushing "bA", with
a test pushing "t1", a child suite with a test pushing "tc", and an
after-all hook pushing "aA". -/
def cexBeforeAllTree : DB :=
  .node { name := "Root" } []
    (.cons
      (.node { name := "A",
               beforeAllHooks := [{ effs := ["bA"], err := some 7 }],
               afterAllHooks := [{ effs := ["aA"] }] }
        [{ name := "t1", effs := ["t1"] }]
        (.cons (.node { name := "C" } [{ name := "tc", effs := ["tc"] }] .nil) .nil))
      .nil)

/-- C1 (counterexample): in the tree above the before-all of suite "A"
fails (the synthetic "(beforeAll hook)" result is recorded), the
suite's own test and its child suite are suppressed — but, contrary to
the claim, the suite's after-all hook does NOT execute: "aA" never
appears in the push log. -/
theorem beforeAll_failure_skips_afterAll_cex :
    (runTestsM cexBeforeAllTree {}).results.map (fun r => (r.test, r.status))
        = [("(beforeAll hook)", TestStatus.failed)] ∧
    "t1" ∉ (runTestsM cexBeforeAllTree {}).log ∧
    "tc" ∉ (runTestsM cexBeforeAllTree {}).log ∧
    "aA" ∉ (runTestsM cexBeforeAllTree {}).log := by decide

/-- C1 (amended, proved): for a visit whose before-all hook sequence
fails, the whole visit reduces to recording that failure: the node is
marked entered, the lineage flags are set, the failing sequence's
pushes and the synthetic "(beforeAll hook)" result and fail event are
appended, and (with bail configured) the bail flag is raised — the
suite's own tests never run, its children are never visited, and its
own after-all hooks are skipped as well. -/
theorem beforeAll_failure_suppresses_scope (opts : RunOptions) (node : RNode)
    (blk : Blk) (tests : List Test) (children : DBList) (st : RunState)
    (hb : st.bail = false) (hm : node.path ∉ st.ranBA)
    (hfail : (runHooksM ((lineageWalk node st.ranBA).foldl
      (fun acc pr => acc ++ pr.1.beforeAllHooks) [])).2.success = false) :
    runDB opts node (.node blk tests children) st =
      ({ st with
          executed := st.executed ++ [node.path],
          ranBA := st.ranBA ++ (lineageWalk node st.ranBA).map (fun pr => pr.2),
          log := st.log ++ (runHooksM ((lineageWalk node st.ranBA).foldl
            (fun acc pr => acc ++ pr.1.beforeAllHooks) [])).1,
          results := st.results ++ [⟨getSuitePath node, "(beforeAll hook)",
            TestStatus.failed, 0,
            (runHooksM ((lineageWalk node st.ranBA).foldl
              (fun acc pr => acc ++ pr.1.beforeAllHooks) [])).2.error⟩],
          events := st.events ++ [TestEvent.fail (getSuitePath node)
            "(beforeAll hook)" 0
            (runHooksM ((lineageWalk node st.ranBA).foldl
              (fun acc pr => acc ++ pr.1.beforeAllHooks) [])).2.error],
          bail := opts.bail }, !opts.bail) := by
  have hm0 : node.path ∉
      ({ st with executed := st.executed ++ [node.path] } : RunState).ranBA := hm
  have hf0 : (runHooksM ((lineageWalk node
      ({ st with executed := st.executed ++ [node.path] } : RunState).ranBA).foldl
      (fun acc pr => acc ++ pr.1.beforeAllHooks) [])).2.success = false := hfail
  simp only [runDB]
  rw [if_neg (by simp [hb])]
  rw [beforeAllStep_fail_eq opts node (getSuitePath node) _ hm0 hf0]
  simp [afterAllStep, hb]

/-- The concrete instance of the suppressed scope: suite "A" whose
before-all pushes "bA" then throws 7, with a test, a child suite and
an after-all hook pushing "aA". -/
def cexABlk : Blk :=
  { name := "A",
    beforeAllHooks := [{ effs := ["bA"], err := some 7 }],
    afterAllHooks := [{ effs := ["aA"] }] }

def cexANode : RNode := .child cexABlk 0 (.root { name := "Root" })

theorem beforeAll_failure_suppresses_scope_witness :
    (runDB ({} : RunOptions) cexANode
        (.node cexABlk [{ name := "t1", effs := ["t1"] }]
          (.cons (.node { name := "C" } [{ name := "tc", effs := ["tc"] }] .nil) .nil))
        {}).1.log = ["bA"] := by
  have h := beforeAll_failure_suppresses_scope ({} : RunOptions) cexANode cexABlk
    [{ name := "t1", effs := ["t1"] }]
    (.cons (.node { name := "C" } [{ name := "tc", effs := ["tc"] }] .nil) .nil)
    {} rfl (by decide) (by decide)
  rw [h]
  decide

/-- C6 (confirmed): with bail configured, (i) across a whole run no
start event ever follows a fail event — after a failure no test not yet
started is begun, in any scope; (ii) a raised bail flag absorbs a suite
visit completely, so no suite not yet started is entered; (iii) a suite
entered with a successful before-all still runs its own after-all
hooks — their pushes are appended after everything else the visit did;
(iv) a test's after-each chain is attempted whatever the outcome, so
the failing test's after-each still runs. -/
theorem bail_stops_new_work (root : DB) (opts : RunOptions) (node : RNode)
    (blk : Blk) (tests : List Test) (children : DBList) (st : RunState)
    (sp : String) (t : Test) :
    (opts.bail = true → bailQuiet (runTestsM root opts).events = true) ∧
    (st.bail = true → runDB opts node (.node blk tests children) st = (st, false)) ∧
    (st.bail = false →
      (beforeAllStep opts node (getSuitePath node)
        { st with executed := st.executed ++ [node.path] }).2 = true →
      ∃ pre, (runDB opts node (.node blk tests children) st).1.log
        = st.log ++ pre ++ (runHooksM blk.afterAllHooks).1) ∧
    ((runTestM opts node sp t st).log
      = st.log ++ (runHooksM (collectHooks node .beforeEach)).1
        ++ (if (runHooksM (collectHooks node .beforeEach)).2.success then t.effs else [])
        ++ (runHooksM (collectHooks node .afterEach)).1) := by
  refine ⟨?_, ?_, ?_, ?_⟩
  · intro hob
    exact ((strel_runTestsM root opts).2.2.2.2.2.2 hob rfl
      (fun h => by simp [hasFailE] at h)).1
  · intro h
    simp [runDB, h]
  · intro hb hok
    simp only [runDB]
    rw [if_neg (by simp [hb])]
    generalize hba : beforeAllStep opts node (getSuitePath node)
      { st with executed := st.executed ++ [node.path] } = ba at hok ⊢
    have h1 : StRel opts { st with executed := st.executed ++ [node.path] } ba.1 := by
      rw [← hba]
      exact strel_beforeAllStep opts node (getSuitePath node) _
    generalize hst2 : (if ba.2 && !ba.1.bail then
      runTestsLoop opts node (getSuitePath node) tests ba.1 else ba.1) = st2
    have h2 : StRel opts ba.1 st2 := by
      rw [← hst2]
      exact StRel.guarded _ _ (strel_runTestsLoop opts node (getSuitePath node) tests ba.1)
    generalize hst3 : (if ba.2 && !st2.bail then
      runChildrenM opts node children 0 st2 else st2) = st3
    have h3 : StRel opts st2 st3 := by
      rw [← hst3]
      exact StRel.guarded _ _ (strel_runChildrenM opts node children 0 st2)
    have hmem : node.path ∈ st3.executed := by
      obtain ⟨e3, he3⟩ := h3.2.1
      obtain ⟨e2, he2⟩ := h2.2.1
      obtain ⟨e1, he1⟩ := h1.2.1
      rw [he3, he2, he1]
      simp
    obtain ⟨g1, hg1⟩ := h1.1
    obtain ⟨g2, hg2⟩ := h2.1
    obtain ⟨g3, hg3⟩ := h3.1
    refine ⟨g1 ++ g2 ++ g3, ?_⟩
    show (afterAllStep opts blk node (getSuitePath node) ba.2 st3).log = _
    rw [hok, afterAllStep_log opts blk node (getSuitePath node) st3 hmem,
      hg3, hg2, hg1]
    simp
  · rw [runTestM_eq]

/-- The bail scenario: suite "A" whose first test fails with error 3,
followed by a second test, a child suite and an after-all pushing "aA";
a sibling suite "B" follows. -/
def bailTree : DB :=
  .node { name := "Root" } []
    (.cons
      (.node { name := "A", afterAllHooks := [{ effs := ["aA"] }] }
        [{ name := "t1", effs := ["t1"], err := some 3 },
         { name := "t2", effs := ["t2"] }]
        (.cons (.node { name := "C" } [{ name := "tc", effs := ["tc"] }] .nil) .nil))
      (.cons (.node { name := "B" } [{ name := "tb", effs := ["tb"] }] .nil) .nil))

theorem bail_stops_new_work_witness :
    bailQuiet (runTestsM bailTree { bail := true }).events = true ∧
    runDB ({ bail := true } : RunOptions) cexANode
        (.node cexABlk [] .nil) { bail := true } = ({ bail := true }, false) ∧
    (∃ pre, (runDB ({ bail := true } : RunOptions) wpNode
        (.node wpBlk [] .nil) {}).1.log
      = ([] : List String) ++ pre ++ (runHooksM wpBlk.afterAllHooks).1) := by
  have h := bail_stops_new_work bailTree { bail := true } wpNode wpBlk [] .nil
    ({} : RunState) "W" wpTest
  have h2 := bail_stops_new_work bailTree { bail := true } cexANode cexABlk [] .nil
    ({ bail := true } : RunState) "W" wpTest
  exact ⟨h.1 rfl, h2.2.1 rfl, h.2.2.1 rfl (by decide)⟩

/-- A thrown value that is not error-like and whose string coercion
throws on every attempt (a toString that always throws). -/
def hostileVal : JSVal :=
  { isError := false, coerce := fun _ => .error () }

/-- C8 (code bug): parseError is not total.  For a non-error-like
thrown value whose string coercion always throws, the `String(e)` in
the main path throws, and the catch block's degrade message performs
another `String(e)` that throws again — so parseError itself raises
instead of returning the minimal Unknown-error record. -/
theorem parseError_raises_on_hostile_value :
    parseErrorM hostileVal = .error () := rfl

/-- C7 (counterexample): calling `it` with no enclosing describe does
not raise — the current-scope cursor starts at the implicit root, so
the guard cannot fire; the test is registered on the root block. -/
theorem it_at_top_level_registers_cex :
    (applyOpM (.it "t1" [] none) initRegState).2 = none ∧
    (applyOpM (.it "t1" [] none) initRegState).1.root
      = .node { name := "Root" } [{ name := "t1" }] .nil := by decide

/-- C7 (amended, proved): the current-scope cursor is initialised to
the implicit root block and no registration sequence ever nulls it
(describe restores it under try/finally), so the null guard in `it`
can never fire: after any registration program the cursor is live, and
in every state with a live cursor `it` raises nothing and appends the
(tag-stripped) test to the current block. -/
theorem it_never_raises (prog : RegOps) (name : String) (effs : List String)
    (err : Option Err) (st : RegState) (p : List Nat) (hc : st.cur = some p) :
    (applyOpsM prog initRegState).1.cur.isSome = true ∧
    (applyOpM (.it name effs err) st).2 = none ∧
    (applyOpM (.it name effs err) st).1.root = modifyDB st.root p (fun b =>
      b.addTest { name := (extractTags name).1, effs := effs, err := err,
                  tags := (extractTags name).2 }) := by
  refine ⟨?_, ?_, ?_⟩
  · have hcur := applyOpsM_cur prog initRegState
    rw [hcur]
    rfl
  · simp [applyOpM, hc]
  · simp [applyOpM, hc]

theorem it_never_raises_witness :
    (applyOpsM (.cons (.describe "D" .nil) .nil) initRegState).1.cur.isSome = true ∧
    (applyOpM (.it "t2" [] none) initRegState).2 = none := by
  have h := it_never_raises (.cons (.describe "D" .nil) .nil) "t2" [] none
    initRegState [] rfl
  exact ⟨h.1, h.2.1⟩

/-- C10 (confirmed): a test registered while the current scope is the
implicit root is appended to the root block's own test list, but
runTests is insensitive to the root's test list (it only traverses the
root's children), and so is getTestList (the root's empty suite path is
falsy, so its tests are skipped): such tests are invisible to both the
run and introspection. -/
theorem root_tests_invisible (blk : Blk) (ts ts2 : List Test)
    (children : DBList) (opts : RunOptions) (name : String)
    (effs : List String) (err : Option Err) (st : RegState)
    (hc : st.cur = some []) :
    runTestsM (.node blk ts children) opts = runTestsM (.node blk ts2 children) opts ∧
    getTestListM (.node blk ts children) = getTestListM (.node blk ts2 children) ∧
    (applyOpM (.it name effs err) st).2 = none ∧
    (applyOpM (.it name effs err) st).1.root.tests = st.root.tests ++
      [{ name := (extractTags name).1, effs := effs, err := err,
         tags := (extractTags name).2 }] := by
  have hsp : getSuitePath (.root blk) = "" := rfl
  refine ⟨rfl, ?_, ?_, ?_⟩
  · simp [getTestListM, getTestListAux, DB.blk, hsp]
  · simp [applyOpM, hc]
  · simp only [applyOpM, hc, modifyDB]
    exact addTest_tests st.root _

theorem root_tests_invisible_witness :
    runTestsM (.node { name := "Root" } [{ name := "ghost" }] DBList.nil) {}
      = runTestsM (.node { name := "Root" } [] DBList.nil) {} ∧
    getTestListM (.node { name := "Root" } [{ name := "ghost" }] DBList.nil)
      = getTestListM (.node { name := "Root" } [] DBList.nil) ∧
    (applyOpM (.it "ghost" [] none) initRegState).1.root.tests = [{ name := "ghost" }] := by
  have h := root_tests_invisible { name := "Root" } [{ name := "ghost" }] []
    DBList.nil {} "ghost" [] none initRegState rfl
  refine ⟨h.1, h.2.1, ?_⟩
  rw [h.2.2.2]
  decide

end CCTest
